import Mathlib

/-!
Verification of the embedding cache and ranking engine of the snippet-vault
browser extension.

The JavaScript sources are embedded shallowly:

* JS numbers are modelled by `JSNum := Option ℚ`: `some q` is a finite value
  (represented exactly), `none` is a non-finite value (`NaN` or `±Infinity`).
* The embeddings index (a JS object mapping snippet ids to vectors) is
  modelled as an ordered association list `Cache := List (String × Vec)`,
  matching JS object key insertion order: inserting a fresh key appends,
  `delete` keeps the order of the remaining keys.
* `throw new Error(...)` is modelled with `Except JsError`; each `JsError`
  constructor corresponds to one family of `throw` sites in the source.
* The asynchronous embedder round-trip is an oracle parameter
  (`String → Vec`, or `String → Except JsError Vec` for the query path);
  functions that can call the embedder also report how many calls they made,
  so "no embedder call" claims are statements about the model.
-/

namespace SnippetVault

/-- A JavaScript number: `some q` is a finite double (modelled exactly as a
rational), `none` is a non-finite value (`NaN` or an infinity). -/
abbrev JSNum := Option ℚ

/-- An embedding vector: a JS array of numbers. -/
abbrev Vec := List JSNum

/-- Build a vector all of whose components are finite. -/
def finVec (l : List ℚ) : Vec := l.map some

/-- JavaScript `String.prototype.trim()`: drop whitespace from both ends.
Defined structurally over the character list so that it evaluates in the
kernel. -/
def jsTrim (s : String) : String :=
  ⟨((s.data.dropWhile Char.isWhitespace).reverse.dropWhile
      Char.isWhitespace).reverse⟩

/-- The embeddings index (`snippet_embeddings_v1` object): an id → vector
mapping with JS object key order (fresh keys are appended at the end). -/
abbrev Cache := List (String × Vec)

/-- The key set of the embeddings index, in object-key order. -/
def Cache.keyList (c : Cache) : List String := c.map (·.1)

/-- Error values thrown by the modelled code.  Each constructor corresponds
to one `throw new Error(...)` message family in the source. -/
inductive JsError
  /-- "Embedding item requires an id." (`background.js` `ensureEmbeddings`) -/
  | itemIdRequired
  /-- "Embedding item requires text." (`background.js` `ensureEmbeddings`) -/
  | itemTextRequired
  /-- "Snippet entry is invalid." (popup validation) -/
  | snippetInvalid
  /-- "Snippet text is required for embeddings." (`getSnippetVector`) -/
  | snippetTextRequired
  /-- "Snippet ID is required..." (`getSnippetVector`, `getSnippetIndex`) -/
  | snippetIdRequired
  /-- "Missing embedding for snippet {id}." (`getSnippetVector`) -/
  | missingEmbedding (id : String)
  /-- "Cosine similarity requires vectors of equal length." -/
  | cosLengthMismatch
  /-- "Cosine similarity requires finite vector values." -/
  | cosNonFinite
  /-- "Cosine similarity requires non-zero vectors." -/
  | cosZeroNorm
  /-- "Query text is required." (`embedQuery`) -/
  | queryTextRequired
  /-- An embedder round-trip reported `ok: false` with a message. -/
  | embedFailed (msg : String)
  /-- "Snippet not found." (`getSnippetIndex`) -/
  | snippetNotFound
  /-- "Target storage area must be different." (`moveSnippet`) -/
  | sameTargetArea
  /-- "Snippet already exists in target storage." (`moveSnippet`) -/
  | duplicateInTarget
  /-- An initialization failure of the offscreen embedder ("Transformers env
  is unavailable.", "Missing local model asset: ...", and the like). -/
  | embedderUnavailable
deriving Repr, DecidableEq

/-- The spec's `InvalidVector` failure class: the three `getCosineSimilarity`
error messages. -/
def JsError.isInvalidVector : JsError → Bool
  | .cosLengthMismatch => true
  | .cosNonFinite => true
  | .cosZeroNorm => true
  | _ => false

/-! ## Embedding cache fill (`background.js` lines 169–193, `ensureEmbeddings`) -/

/-- An item sent to `ensureEmbeddings`: `{ id, text }`. -/
structure EmbItem where
  id : String
  text : String
deriving Repr, DecidableEq

/-- The validation `ensureEmbeddings` performs per item: the id is a
non-empty string and the text has non-empty trim.  (The `typeof item !==
'object'` guard cannot fail in the model, where every item is a record.) -/
def EmbItem.valid (it : EmbItem) : Bool :=
  it.id.length != 0 && (jsTrim it.text).length != 0

/-- Result of one `ensureEmbeddings` call. -/
structure EnsureOut where
  /-- The in-memory embeddings index after the loop. -/
  cache : Cache
  /-- The returned `updated` counter. -/
  updated : Nat
  /-- Texts sent to `embedText`, in call order (the embedder-call trace). -/
  calls : List String
  /-- Whether `setStorage` was invoked (`if (updated > 0)`). -/
  wrote : Bool
deriving Repr, DecidableEq

/-- The `for (const item of items)` loop of `ensureEmbeddings`: validate the
item, skip it if `embeddingsIndex[item.id]` is already present (a stored
vector is a JS array, hence truthy), otherwise call the embedder and insert
the vector under the id. -/
def ensureLoop (embed : String → Vec) :
    Cache → Nat → List String → List EmbItem →
    Except JsError (Cache × Nat × List String)
  | c, u, tr, [] => .ok (c, u, tr)
  | c, u, tr, it :: rest =>
    if it.id.length = 0 then .error .itemIdRequired
    else if (jsTrim it.text).length = 0 then .error .itemTextRequired
    else
      match c.lookup it.id with
      | some _ => ensureLoop embed c u tr rest
      | none =>
        ensureLoop embed (c ++ [(it.id, embed it.text)]) (u + 1)
          (tr ++ [it.text]) rest

/-- `ensureEmbeddings(items)` from `background.js`: load the index (here the
`c` argument), run the fill loop, and persist iff `updated > 0`. -/
def ensureEmbeddings (embed : String → Vec) (c : Cache) (items : List EmbItem) :
    Except JsError EnsureOut :=
  match ensureLoop embed c 0 [] items with
  | .error e => .error e
  | .ok (c', u, tr) => .ok ⟨c', u, tr, decide (0 < u)⟩

/-- Specification-side description of which items the fill loop treats as
missing: an item is missing when its id is neither among the initial keys
`ks` nor the id of an earlier missing item. -/
def missingItems (ks : List String) : List EmbItem → List EmbItem
  | [] => []
  | it :: rest =>
    if ks.contains it.id then missingItems ks rest
    else it :: missingItems (ks ++ [it.id]) rest

/-! ### Association-list facts used throughout -/

theorem keyList_append (c d : Cache) :
    Cache.keyList (c ++ d) = Cache.keyList c ++ Cache.keyList d := by
  simp [Cache.keyList]

theorem lookup_isSome_keyList (c : Cache) (k : String) :
    (c.lookup k).isSome = true ↔ k ∈ Cache.keyList c := by
  simp only [List.lookup_isSome_iff, Cache.keyList]
  constructor
  · rintro ⟨p, hp, he⟩
    exact (beq_iff_eq.mp he) ▸ List.mem_map_of_mem _ hp
  · intro hm
    rcases List.mem_map.mp hm with ⟨p, hp, he⟩
    exact ⟨p, hp, beq_iff_eq.mpr he.symm⟩

theorem lookup_none_keyList (c : Cache) (k : String) :
    c.lookup k = none ↔ k ∉ Cache.keyList c := by
  rw [← lookup_isSome_keyList]
  cases c.lookup k <;> simp

theorem lookup_append_of_isSome {c : Cache} {k : String} (d : Cache)
    (h : (c.lookup k).isSome = true) : (c ++ d).lookup k = c.lookup k := by
  cases hc : c.lookup k with
  | none => rw [hc] at h; cases h
  | some v => simp [List.lookup_append, hc]

/-! ### Characterization of the fill loop -/

/-- Validity unpacked into the two checks the loop performs. -/
theorem EmbItem.valid_iff (it : EmbItem) :
    it.valid = true ↔ it.id.length ≠ 0 ∧ (jsTrim it.text).length ≠ 0 := by
  simp [EmbItem.valid]

/-- The fill loop, run on valid items, appends exactly the vectors of the
missing items (in supply order), adds their number to the counter, and calls
the embedder exactly once per missing item, in supply order. -/
theorem ensureLoop_eq (embed : String → Vec) :
    ∀ (items : List EmbItem) (c : Cache) (u : Nat) (tr : List String),
      (∀ it ∈ items, it.valid = true) →
      ensureLoop embed c u tr items =
        .ok (c ++ (missingItems (Cache.keyList c) items).map
                (fun it => (it.id, embed it.text)),
             u + (missingItems (Cache.keyList c) items).length,
             tr ++ (missingItems (Cache.keyList c) items).map (·.text))
  | [], c, u, tr, _ => by simp [ensureLoop, missingItems]
  | it :: rest, c, u, tr, hv => by
    have hvit := (EmbItem.valid_iff it).mp (hv it (List.mem_cons_self it rest))
    have hvrest : ∀ x ∈ rest, x.valid = true := fun x hx =>
      hv x (List.mem_cons_of_mem it hx)
    rw [ensureLoop, if_neg hvit.1, if_neg hvit.2]
    cases hc : c.lookup it.id with
    | some v =>
      have hmem : it.id ∈ Cache.keyList c :=
        (lookup_isSome_keyList c it.id).mp (by rw [hc]; rfl)
      have hmiss : missingItems (Cache.keyList c) (it :: rest)
          = missingItems (Cache.keyList c) rest := by
        simp [missingItems, hmem]
      rw [ensureLoop_eq embed rest c u tr hvrest, hmiss]
    | none =>
      have hmem : it.id ∉ Cache.keyList c := (lookup_none_keyList c it.id).mp hc
      have hkeys : Cache.keyList (c ++ [(it.id, embed it.text)])
          = Cache.keyList c ++ [it.id] := by
        simp [Cache.keyList]
      have hmiss : missingItems (Cache.keyList c) (it :: rest)
          = it :: missingItems (Cache.keyList c ++ [it.id]) rest := by
        simp [missingItems, hmem]
      rw [ensureLoop_eq embed rest (c ++ [(it.id, embed it.text)]) (u + 1)
            (tr ++ [it.text]) hvrest, hkeys, hmiss]
      simp only [List.map_cons, List.length_cons, Except.ok.injEq,
        Prod.mk.injEq]
      refine ⟨by simp, by omega, by simp⟩

/-- C1 helper: every supplied item's id ends up either among the initial keys
or among the ids of the missing items. -/
theorem mem_missing_or_keys :
    ∀ (items : List EmbItem) (ks : List String) (it : EmbItem), it ∈ items →
      it.id ∈ ks ∨ it.id ∈ (missingItems ks items).map (·.id)
  | [], _, _, h => absurd h (List.not_mem_nil _)
  | x :: rest, ks, it, h => by
    by_cases hx : x.id ∈ ks
    · rw [show missingItems ks (x :: rest) = missingItems ks rest by
        simp [missingItems, hx]]
      rcases List.mem_cons.mp h with h1 | h1
      · subst h1; exact Or.inl hx
      · exact mem_missing_or_keys rest ks it h1
    · rw [show missingItems ks (x :: rest)
          = x :: missingItems (ks ++ [x.id]) rest by
        simp [missingItems, hx]]
      rcases List.mem_cons.mp h with h1 | h1
      · subst h1; exact Or.inr (by simp)
      · rcases mem_missing_or_keys rest (ks ++ [x.id]) it h1 with h2 | h2
        · rcases List.mem_append.mp h2 with h3 | h3
          · exact Or.inl h3
          · exact Or.inr (by simp at h3; simp [h3])
        · exact Or.inr (by simp [h2])

/-- C2 helper: when every supplied id is already a key, nothing is missing. -/
theorem missingItems_eq_nil :
    ∀ (items : List EmbItem) (ks : List String),
      (∀ it ∈ items, it.id ∈ ks) → missingItems ks items = []
  | [], _, _ => rfl
  | x :: rest, ks, h => by
    have hx : x.id ∈ ks := h x (List.mem_cons_self x rest)
    rw [show missingItems ks (x :: rest) = missingItems ks rest by
      simp [missingItems, hx]]
    exact missingItems_eq_nil rest ks fun it hit =>
      h it (List.mem_cons_of_mem x hit)

/-! ## Claims C1 and C2 -/

/-- C1: for every sequence of valid items (non-empty id, non-empty trimmed
text), `ensureEmbeddings` calls the embedder exactly once for every item
whose id is absent from the cache (the fresh-id items, in the order the
items were supplied — `out.calls` is exactly their texts in that order),
inserts the returned vector under that id, skips every item whose id is
already present (their cache entries are unchanged), and returns the number
of newly inserted entries. -/
theorem ensureEmbeddings_fills_missing
    (embed : String → Vec) (c : Cache) (items : List EmbItem)
    (hv : ∀ it ∈ items, it.valid = true) :
    ∃ out : EnsureOut,
      ensureEmbeddings embed c items = .ok out
      ∧ out.calls = (missingItems (Cache.keyList c) items).map (·.text)
      ∧ out.cache = c ++ (missingItems (Cache.keyList c) items).map
          (fun it => (it.id, embed it.text))
      ∧ out.updated = (missingItems (Cache.keyList c) items).length
      ∧ (∀ it ∈ items, (c.lookup it.id).isSome = true →
          out.cache.lookup it.id = c.lookup it.id) := by
  have h := ensureLoop_eq embed items c 0 [] hv
  refine ⟨⟨c ++ (missingItems (Cache.keyList c) items).map
            (fun it => (it.id, embed it.text)),
          (missingItems (Cache.keyList c) items).length,
          (missingItems (Cache.keyList c) items).map (·.text),
          decide (0 < (missingItems (Cache.keyList c) items).length)⟩,
      ?_, rfl, rfl, rfl, ?_⟩
  · rw [ensureEmbeddings, h]; simp
  · intro it _ hsome
    exact lookup_append_of_isSome _ hsome

/-- Witness for C1: a cache holding id `a`, and items with ids `a` (cached,
skipped), `b` (fresh), `c` (fresh) and `b` again (no second embedder call
for a repeated fresh id). -/
theorem ensureEmbeddings_fills_missing_witness :
    ∃ out : SnippetVault.EnsureOut,
      ensureEmbeddings (fun t => [some ((t.length : ℚ))])
          [("a", finVec [1])]
          [⟨"a", "x"⟩, ⟨"b", "y"⟩, ⟨"c", "zz"⟩, ⟨"b", "w"⟩] = .ok out
      ∧ out.calls = (missingItems
            (Cache.keyList [("a", finVec [1])])
            [⟨"a", "x"⟩, ⟨"b", "y"⟩, ⟨"c", "zz"⟩, ⟨"b", "w"⟩]).map (·.text)
      ∧ out.cache = [("a", finVec [1])] ++ (missingItems
            (Cache.keyList [("a", finVec [1])])
            [⟨"a", "x"⟩, ⟨"b", "y"⟩, ⟨"c", "zz"⟩, ⟨"b", "w"⟩]).map
            (fun it => (it.id, (fun t => [some ((t.length : ℚ))]) it.text))
      ∧ out.updated = (missingItems
            (Cache.keyList [("a", finVec [1])])
            [⟨"a", "x"⟩, ⟨"b", "y"⟩, ⟨"c", "zz"⟩, ⟨"b", "w"⟩]).length
      ∧ (∀ it ∈ ([⟨"a", "x"⟩, ⟨"b", "y"⟩, ⟨"c", "zz"⟩, ⟨"b", "w"⟩] :
            List EmbItem),
          (List.lookup it.id [("a", finVec [1])]).isSome = true →
          out.cache.lookup it.id = List.lookup it.id [("a", finVec [1])]) :=
  ensureEmbeddings_fills_missing _ _ _ (by decide)

/-- C2: `ensureEmbeddings` is idempotent.  After one completed call, a second
call on the resulting cache with the same unchanged item set issues zero
embedder calls (`calls = []`), reports zero updates, leaves the cache
byte-for-byte identical (the very same association list), and performs no
persistence write (`wrote = false`). -/
theorem ensureEmbeddings_idempotent
    (embed : String → Vec) (c : Cache) (items : List EmbItem)
    (out : EnsureOut)
    (hv : ∀ it ∈ items, it.valid = true)
    (h1 : ensureEmbeddings embed c items = .ok out) :
    ensureEmbeddings embed out.cache items = .ok ⟨out.cache, 0, [], false⟩ := by
  rw [ensureEmbeddings, ensureLoop_eq embed items c 0 [] hv] at h1
  cases h1
  have hcover : ∀ it ∈ items,
      it.id ∈ Cache.keyList (c ++ (missingItems (Cache.keyList c) items).map
        (fun it => (it.id, embed it.text))) := by
    intro it hit
    rw [keyList_append]
    have hk : Cache.keyList ((missingItems (Cache.keyList c) items).map
        (fun it => (it.id, embed it.text)))
        = (missingItems (Cache.keyList c) items).map (·.id) := by
      simp [Cache.keyList, List.map_map]
    rw [hk]
    rcases mem_missing_or_keys items (Cache.keyList c) it hit with h | h
    · exact List.mem_append.mpr (Or.inl h)
    · exact List.mem_append.mpr (Or.inr h)
  have hmiss := missingItems_eq_nil items _ hcover
  rw [ensureEmbeddings, ensureLoop_eq embed items _ 0 [] hv, hmiss]
  simp

/-- Witness for C2: a second call after the cache was filled for ids `a` and
`b` does nothing and writes nothing. -/
theorem ensureEmbeddings_idempotent_witness :
    ensureEmbeddings (fun t => [some ((t.length : ℚ))])
        [("a", finVec [1]), ("b", [some 1])] [⟨"a", "x"⟩, ⟨"b", "y"⟩]
      = .ok ⟨[("a", finVec [1]), ("b", [some 1])], 0, [], false⟩ :=
  ensureEmbeddings_idempotent (fun t => [some ((t.length : ℚ))])
    [("a", finVec [1])] [⟨"a", "x"⟩, ⟨"b", "y"⟩]
    ⟨[("a", finVec [1]), ("b", [some 1])], 1, ["y"], true⟩
    (by decide) (by rfl)

/-! ## Popup data model and pruning (`src/unnamed/part_000`) -/

/-- A stored snippet as the popup core reads it.  The source records also carry
`url` and `date` fields, but the cache/ranking core never reads them, so the
model keeps only `id` and `text`. -/
structure Snip where
  id : String
  text : String
deriving Repr, DecidableEq

/-- The union of snippet ids across all storage domains, in iteration order
(the `ids` set built by `pruneEmbeddingsIndex`). -/
def liveIds (areas : List (List Snip)) : List String :=
  areas.flatten.map (·.id)

/-- `pruneEmbeddingsIndex` (part_000 lines 450–472): collect every live id
across all domains (throwing if a snippet lacks a truthy id), delete every
cached entry whose id is not live (JS `delete` keeps the remaining keys in
order, i.e. a filter), and return whether anything was deleted. -/
def pruneEmbeddingsIndex (areas : List (List Snip)) (c : Cache) :
    Except JsError (Cache × Bool) :=
  if areas.flatten.all (fun s => s.id.length != 0) then
    .ok (c.filter (fun e => (liveIds areas).contains e.1),
         c.any (fun e => !(liveIds areas).contains e.1))
  else .error .snippetInvalid

theorem keyList_filter (c : Cache) (ids : List String) (k : String) :
    k ∈ Cache.keyList (c.filter (fun e => ids.contains e.1))
      ↔ k ∈ Cache.keyList c ∧ k ∈ ids := by
  simp only [Cache.keyList, List.mem_map, List.mem_filter]
  constructor
  · rintro ⟨e, ⟨hec, hp⟩, rfl⟩
    exact ⟨⟨e, hec, rfl⟩, by simpa using hp⟩
  · rintro ⟨⟨e, hec, rfl⟩, hk⟩
    exact ⟨e, ⟨hec, by simpa using hk⟩, rfl⟩

/-- C3: for every cache state and every family of domains, a prune pass
succeeds (on snippets with truthy ids), the resulting cache's id set is
exactly the intersection of the previous id set with the live ids (hence,
when every live id was cached — as after any fill — exactly the union of
ids across all domains), and the returned flag is `true` iff at least one
entry was deleted. -/
theorem pruneEmbeddingsIndex_intersects (areas : List (List Snip)) (c : Cache)
    (hv : areas.flatten.all (fun s => s.id.length != 0) = true) :
    ∃ (c' : Cache) (changed : Bool),
      pruneEmbeddingsIndex areas c = .ok (c', changed)
      ∧ (∀ k, k ∈ Cache.keyList c'
            ↔ k ∈ Cache.keyList c ∧ k ∈ liveIds areas)
      ∧ (changed = true ↔ ∃ k ∈ Cache.keyList c, k ∉ liveIds areas)
      ∧ ((∀ k ∈ liveIds areas, k ∈ Cache.keyList c) →
          ∀ k, k ∈ Cache.keyList c' ↔ k ∈ liveIds areas) := by
  refine ⟨c.filter (fun e => (liveIds areas).contains e.1),
      c.any (fun e => !(liveIds areas).contains e.1),
      by rw [pruneEmbeddingsIndex, if_pos hv], ?_, ?_, ?_⟩
  · exact keyList_filter c (liveIds areas)
  · simp only [List.any_eq_true, Bool.not_eq_true']
    constructor
    · rintro ⟨e, hec, hp⟩
      refine ⟨e.1, List.mem_map_of_mem _ hec, by simpa using hp⟩
    · rintro ⟨k, hk, hnot⟩
      rcases List.mem_map.mp hk with ⟨e, hec, rfl⟩
      exact ⟨e, hec, by simpa using hnot⟩
  · intro hcover k
    rw [keyList_filter c (liveIds areas) k]
    exact ⟨fun h => h.2, fun h => ⟨hcover k h, h⟩⟩

/-- Witness for C3: two domains holding ids `a` and `c`; the cache holds
`a` and `b`, so pruning keeps exactly `a` and reports a deletion. -/
theorem pruneEmbeddingsIndex_intersects_witness :
    pruneEmbeddingsIndex [[⟨"a", "t"⟩], [⟨"c", "u"⟩]]
        [("a", [some 1]), ("b", [some 2])]
      = .ok ([("a", [some 1])], true)
    ∧ ∃ (c' : Cache) (changed : Bool),
      pruneEmbeddingsIndex [[⟨"a", "t"⟩], [⟨"c", "u"⟩]]
          [("a", [some 1]), ("b", [some 2])] = .ok (c', changed)
      ∧ (∀ k, k ∈ Cache.keyList c'
            ↔ k ∈ Cache.keyList [("a", [some (1 : ℚ)]), ("b", [some 2])]
              ∧ k ∈ liveIds [[⟨"a", "t"⟩], [⟨"c", "u"⟩]])
      ∧ (changed = true
          ↔ ∃ k ∈ Cache.keyList [("a", [some (1 : ℚ)]), ("b", [some 2])],
              k ∉ liveIds [[⟨"a", "t"⟩], [⟨"c", "u"⟩]])
      ∧ ((∀ k ∈ liveIds [[⟨"a", "t"⟩], [⟨"c", "u"⟩]],
            k ∈ Cache.keyList [("a", [some (1 : ℚ)]), ("b", [some 2])]) →
          ∀ k, k ∈ Cache.keyList c'
            ↔ k ∈ liveIds [[⟨"a", "t"⟩], [⟨"c", "u"⟩]]) :=
  ⟨by rfl, pruneEmbeddingsIndex_intersects _ _ (by decide)⟩

/-! ## Cosine similarity (part_000 lines 541–565, `getCosineSimilarity`) -/

/-- The three accumulators of a successful `getCosineSimilarity` run.  The
JS function finally returns the real number
`dot / (Math.sqrt(normA) * Math.sqrt(normB))`; a rational-valued model keeps
the accumulators exactly as computed, and theorems spell out the real-valued
quotient with `Real.sqrt`.  The decidable comparison `scoreGe` below is
proved (in `scoreGe_iff_real`) to order `Score`s exactly as those real
quotients do. -/
structure Score where
  dot : ℚ
  normA : ℚ
  normB : ℚ
deriving Repr, DecidableEq

/-- The `for` loop of `getCosineSimilarity`: `i` ranges over `a.length`, and
a missing `b[i]` (JS `undefined`, when `b` is shorter) fails the
`Number.isFinite` check exactly like a stored non-finite value. -/
def cosLoop : Vec → Vec → ℚ → ℚ → ℚ → Except JsError (ℚ × ℚ × ℚ)
  | [], _, d, na, nb => .ok (d, na, nb)
  | _ :: _, [], _, _, _ => .error .cosNonFinite
  | some x :: xs, some y :: ys, d, na, nb =>
    cosLoop xs ys (d + x * y) (na + x * x) (nb + y * y)
  | _ :: _, _ :: _, _, _, _ => .error .cosNonFinite

/-- `getCosineSimilarity(a, b)`: reject unequal lengths, run the loop
(rejecting non-finite components), reject zero norms, and otherwise produce
the accumulated triple.  (The leading `typeof a.length !== 'number'` guard
cannot fail in the model, where both arguments are arrays.) -/
def getCosineSimilarity (a b : Vec) : Except JsError Score :=
  if a.length ≠ b.length then .error .cosLengthMismatch
  else
    match cosLoop a b 0 0 0 with
    | .error e => .error e
    | .ok (d, na, nb) =>
      if na = 0 ∨ nb = 0 then .error .cosZeroNorm
      else .ok ⟨d, na, nb⟩

/-- Whether every component of a vector is finite. -/
def allFinite (v : Vec) : Bool := v.all (·.isSome)

/-- The rational carried by a finite JS number (`0` for non-finite ones,
which only matters on paths that have already failed). -/
def qVal (x : JSNum) : ℚ := x.getD 0

/-- Sum of squared components. -/
def sumSq (v : Vec) : ℚ := (v.map (fun x => qVal x * qVal x)).sum

/-- Dot product over the common prefix. -/
def dotQ : Vec → Vec → ℚ
  | x :: xs, y :: ys => qVal x * qVal y + dotQ xs ys
  | _, _ => 0

theorem cosLoop_ok_of_finite :
    ∀ (a b : Vec) (d na nb : ℚ), a.length = b.length →
      allFinite a = true → allFinite b = true →
      cosLoop a b d na nb = .ok (d + dotQ a b, na + sumSq a, nb + sumSq b)
  | [], [], d, na, nb, _, _, _ => by
    simp [cosLoop, dotQ, sumSq]
  | [], _ :: _, _, _, _, h, _, _ => by cases h
  | _ :: _, [], _, _, _, h, _, _ => by cases h
  | x :: xs, y :: ys, d, na, nb, h, ha, hb => by
    rcases x with _ | x
    · simp [allFinite] at ha
    rcases y with _ | y
    · simp [allFinite] at hb
    have ha' : allFinite xs = true := by simpa [allFinite] using ha
    have hb' : allFinite ys = true := by simpa [allFinite] using hb
    rw [show cosLoop (some x :: xs) (some y :: ys) d na nb
        = cosLoop xs ys (d + x * y) (na + x * x) (nb + y * y) from rfl,
      cosLoop_ok_of_finite xs ys _ _ _ (by simpa using h) ha' hb']
    simp only [Except.ok.injEq, Prod.mk.injEq, dotQ, sumSq, qVal,
      List.map_cons, List.sum_cons, Option.getD_some]
    refine ⟨by ring, by ring, by ring⟩

theorem cosLoop_err_of_nonFinite :
    ∀ (a b : Vec) (d na nb : ℚ), a.length = b.length →
      allFinite a = false ∨ allFinite b = false →
      cosLoop a b d na nb = .error .cosNonFinite
  | [], [], _, _, _, _, hf => by simp [allFinite] at hf
  | [], _ :: _, _, _, _, h, _ => by cases h
  | _ :: _, [], _, _, _, h, _ => by cases h
  | x :: xs, y :: ys, d, na, nb, h, hf => by
    rcases x with _ | x
    · rfl
    rcases y with _ | y
    · rfl
    have hf' : allFinite xs = false ∨ allFinite ys = false := by
      simpa [allFinite] using hf
    exact cosLoop_err_of_nonFinite xs ys _ _ _ (by simpa using h) hf'

theorem cosLoop_mono :
    ∀ (a b : Vec) (d na nb d' na' nb' : ℚ),
      cosLoop a b d na nb = .ok (d', na', nb') → na ≤ na' ∧ nb ≤ nb'
  | [], b, d, na, nb, d', na', nb', h => by
    simp only [cosLoop, Except.ok.injEq, Prod.mk.injEq] at h
    exact ⟨le_of_eq h.2.1, le_of_eq h.2.2⟩
  | _ :: _, [], _, _, _, _, _, _, h => by simp [cosLoop] at h
  | some x :: xs, some y :: ys, d, na, nb, d', na', nb', h => by
    simp only [cosLoop] at h
    have ih := cosLoop_mono xs ys _ _ _ _ _ _ h
    constructor
    · nlinarith [ih.1, mul_self_nonneg x]
    · nlinarith [ih.2, mul_self_nonneg y]
  | none :: _, _ :: _, _, _, _, _, _, _, h => by simp [cosLoop] at h
  | some _ :: _, none :: _, _, _, _, _, _, _, h => by simp [cosLoop] at h

/-- A successful cosine computation has strictly positive norm
accumulators. -/
theorem getCosineSimilarity_ok_pos {a b : Vec} {s : Score}
    (h : getCosineSimilarity a b = .ok s) : 0 < s.normA ∧ 0 < s.normB := by
  by_cases hl : a.length ≠ b.length
  · rw [getCosineSimilarity, if_pos hl] at h; cases h
  · rw [getCosineSimilarity, if_neg hl] at h
    cases hc : cosLoop a b 0 0 0 with
    | error e => rw [hc] at h; cases h
    | ok t =>
      obtain ⟨d, na, nb⟩ := t
      rw [hc] at h
      have h' : (if na = 0 ∨ nb = 0 then
            (.error .cosZeroNorm : Except JsError Score)
          else .ok ⟨d, na, nb⟩) = .ok s := h
      by_cases hz : na = 0 ∨ nb = 0
      · rw [if_pos hz] at h'; cases h'
      · rw [if_neg hz] at h'
        cases h'
        push_neg at hz
        have hm := cosLoop_mono a b 0 0 0 d na nb hc
        exact ⟨lt_of_le_of_ne hm.1 (Ne.symm hz.1),
          lt_of_le_of_ne hm.2 (Ne.symm hz.2)⟩

/-- C7: `getCosineSimilarity` fails with an `InvalidVector`-class error (and
never returns a score) whenever the lengths differ, some component of either
vector is non-finite, or either vector's norm (sum of squares) is zero. -/
theorem getCosineSimilarity_rejects_degenerate (a b : Vec)
    (h : a.length ≠ b.length
      ∨ allFinite a = false ∨ allFinite b = false
      ∨ sumSq a = 0 ∨ sumSq b = 0) :
    ∃ e : JsError, getCosineSimilarity a b = .error e
      ∧ e.isInvalidVector = true := by
  by_cases hl : a.length ≠ b.length
  · exact ⟨.cosLengthMismatch, by rw [getCosineSimilarity, if_pos hl], rfl⟩
  · push_neg at hl
    by_cases hf : allFinite a = false ∨ allFinite b = false
    · refine ⟨.cosNonFinite, ?_, rfl⟩
      rw [getCosineSimilarity, if_neg (by omega),
        cosLoop_err_of_nonFinite a b 0 0 0 hl hf]
    · push_neg at hf
      have hfa : allFinite a = true := by
        cases hx : allFinite a
        · exact absurd hx hf.1
        · rfl
      have hfb : allFinite b = true := by
        cases hx : allFinite b
        · exact absurd hx hf.2
        · rfl
      have hz : sumSq a = 0 ∨ sumSq b = 0 := by
        rcases h with h | h | h | h | h
        · exact absurd h (by omega)
        · exact absurd h (by simp [hfa])
        · exact absurd h (by simp [hfb])
        · exact Or.inl h
        · exact Or.inr h
      refine ⟨.cosZeroNorm, ?_, rfl⟩
      rw [getCosineSimilarity, if_neg (by omega),
        cosLoop_ok_of_finite a b 0 0 0 hl hfa hfb]
      show (if 0 + sumSq a = 0 ∨ 0 + sumSq b = 0 then
          (.error .cosZeroNorm : Except JsError Score)
        else .ok ⟨0 + dotQ a b, 0 + sumSq a, 0 + sumSq b⟩) = .error .cosZeroNorm
      simp only [zero_add]
      rw [if_pos hz]

/-- Witness for C7: the spec's two degenerate examples.
`cosineSimilarity([0,0],[1,1])` fails with the zero-norm error and
`cosineSimilarity([1,2],[1,2,3])` fails with the length-mismatch error; the
general theorem is applied at the first input. -/
theorem getCosineSimilarity_rejects_degenerate_witness :
    getCosineSimilarity (finVec [0, 0]) (finVec [1, 1])
        = .error .cosZeroNorm
    ∧ getCosineSimilarity (finVec [1, 2]) (finVec [1, 2, 3])
        = .error .cosLengthMismatch
    ∧ ∃ e : JsError,
        getCosineSimilarity (finVec [0, 0]) (finVec [1, 1]) = .error e
        ∧ e.isInvalidVector = true :=
  ⟨by simp [getCosineSimilarity, finVec, cosLoop],
    by simp [getCosineSimilarity, finVec],
    getCosineSimilarity_rejects_degenerate _ _
      (by simp [sumSq, qVal, finVec])⟩

/-! ### Ordering scores as the real cosine values order them -/

/-- Decidable order key for scores: `dot·|dot| / (normA·normB)` (rational;
division by zero never matters because every produced score has positive
norms).  For positive norms this equals `val·|val|` where `val` is the real
value the JS function returns, and `x ↦ x·|x|` is strictly monotone, so key
comparison coincides with cosine comparison (`scoreGe_iff_real`). -/
def Score.key (s : Score) : ℚ := s.dot * |s.dot| / (s.normA * s.normB)

/-- The JS sort comparator `(a, b) => b.score - a.score` as a Boolean
"may precede" relation: `s` may come before `t` iff `score s ≥ score t`. -/
def scoreGe (s t : Score) : Bool := decide (Score.key t ≤ Score.key s)

theorem mulAbs_strictMono : StrictMono (fun x : ℝ => x * |x|) := by
  intro a b hab
  simp only
  rcases le_or_lt 0 a with ha | ha
  · rw [abs_of_nonneg ha, abs_of_nonneg (le_trans ha hab.le)]
    nlinarith
  · rw [abs_of_neg ha]
    rcases le_or_lt 0 b with hb | hb
    · rw [abs_of_nonneg hb]; nlinarith
    · rw [abs_of_neg hb]; nlinarith

/-- `scoreGe` compares two (positive-norm) scores exactly as the real
numbers `dot / (√normA * √normB)` returned by the JS function compare. -/
theorem scoreGe_iff_real (s t : Score)
    (hsa : 0 < s.normA) (hsb : 0 < s.normB)
    (hta : 0 < t.normA) (htb : 0 < t.normB) :
    scoreGe s t = true ↔
      (t.dot : ℝ) / (Real.sqrt (t.normA : ℝ) * Real.sqrt (t.normB : ℝ))
        ≤ (s.dot : ℝ) / (Real.sqrt (s.normA : ℝ) * Real.sqrt (s.normB : ℝ)) := by
  have hsa' : (0:ℝ) < (s.normA : ℝ) := by exact_mod_cast hsa
  have hsb' : (0:ℝ) < (s.normB : ℝ) := by exact_mod_cast hsb
  have hta' : (0:ℝ) < (t.normA : ℝ) := by exact_mod_cast hta
  have htb' : (0:ℝ) < (t.normB : ℝ) := by exact_mod_cast htb
  have hms : Real.sqrt (s.normA : ℝ) * Real.sqrt (s.normB : ℝ)
      = Real.sqrt ((s.normA : ℝ) * (s.normB : ℝ)) := (Real.sqrt_mul hsa'.le _).symm
  have hmt : Real.sqrt (t.normA : ℝ) * Real.sqrt (t.normB : ℝ)
      = Real.sqrt ((t.normA : ℝ) * (t.normB : ℝ)) := (Real.sqrt_mul hta'.le _).symm
  have key_eq : ∀ u : Score, (0:ℝ) < (u.normA : ℝ) → (0:ℝ) < (u.normB : ℝ) →
      ((Score.key u : ℚ) : ℝ)
        = ((u.dot : ℝ) / Real.sqrt ((u.normA : ℝ) * (u.normB : ℝ)))
          * |(u.dot : ℝ) / Real.sqrt ((u.normA : ℝ) * (u.normB : ℝ))| := by
    intro u hua hub
    have hP : (0:ℝ) < (u.normA : ℝ) * (u.normB : ℝ) := mul_pos hua hub
    rw [abs_div, abs_of_nonneg (Real.sqrt_nonneg _), div_mul_div_comm,
      Real.mul_self_sqrt hP.le, Score.key]
    push_cast
    ring
  rw [scoreGe, decide_eq_true_eq, ← Rat.cast_le (K := ℝ),
    key_eq t hta' htb', key_eq s hsa' hsb', hmt, hms]
  exact mulAbs_strictMono.le_iff_le

/-! ## Reading cached vectors and ranking (part_000 lines 341–432) -/

/-- `toVector` on a value read from the embeddings index.  Stored values are
JS arrays of numbers, on which the `Array.isArray` branch applies and
`Float32Array.from` is value-preserving; the other branches of the source
function unwrap `Float32Array`-shaped model outputs, which never occur in
the stored index. -/
def toVector (v : Vec) : Vec := v

/-- `getSnippetVector(snippet)` (lines 401–416): validate the snippet, then
a pure lookup in the in-memory index.  By construction the function has no
access to the embedder oracle or to storage: reading is lookup only. -/
def getSnippetVector (c : Cache) (s : Snip) : Except JsError Vec :=
  if (jsTrim s.text).length = 0 then .error .snippetTextRequired
  else if s.id.length = 0 then .error .snippetIdRequired
  else
    match c.lookup s.id with
    | none => .error (.missingEmbedding s.id)
    | some v => .ok (toVector v)

/-- The two storage domains the popup presents. -/
inductive Area
  | localArea
  | syncArea
deriving Repr, DecidableEq

/-- The popup's in-memory state: `snippetsByArea` plus the embeddings
index. -/
structure PopupState where
  localSnips : List Snip
  syncSnips : List Snip
  cache : Cache
deriving Repr, DecidableEq

/-- `getAllSnippetItems()` (lines 132–150): every snippet of every domain
tagged with its domain, `local` first then `sync` (the iteration order of
`snippetsByArea`). -/
def allSnippetItems (st : PopupState) : List (Snip × Area) :=
  st.localSnips.map (fun s => (s, .localArea))
    ++ st.syncSnips.map (fun s => (s, .syncArea))

/-- One `{ snippet, area, score }` entry of the ranked output. -/
structure Scored where
  snip : Snip
  area : Area
  score : Score
deriving Repr, DecidableEq

/-- The scoring loop of `rankSnippets`: look up each snippet's cached
vector, score it against the query vector, and stop at the first failure
(a JS `throw` aborts the whole loop). -/
def scoreAll (qv : Vec) (c : Cache) :
    List (Snip × Area) → Except JsError (List Scored)
  | [] => .ok []
  | (s, ar) :: rest =>
    match getSnippetVector c s with
    | .error e => .error e
    | .ok v =>
      match getCosineSimilarity qv v with
      | .error e => .error e
      | .ok sc =>
        match scoreAll qv c rest with
        | .error e => .error e
        | .ok tail => .ok (⟨s, ar, sc⟩ :: tail)

/-- The comparator relation of `scored.sort((a, b) => b.score - a.score)`:
`x` may precede `y` iff `x`'s score is at least `y`'s. -/
def scoredLE (x y : Scored) : Bool := scoreGe x.score y.score

/-- JS `Array.prototype.sort` is required by the language spec to be stable,
so it is modelled by the stable `List.mergeSort` under the comparator's
"may precede" relation. -/
def sortByScoreDesc (l : List Scored) : List Scored := l.mergeSort scoredLE

/-- `embedQuery(text)` (lines 514–524): validate, then one background
round-trip, modelled by the oracle. -/
def embedQuery (oracle : String → Except JsError Vec) (text : String) :
    Except JsError Vec :=
  if (jsTrim text).length = 0 then .error .queryTextRequired
  else oracle text

/-- Number of embedder calls `embedQuery` makes (validation happens before
any message is sent). -/
def embedQueryCalls (text : String) : Nat :=
  if (jsTrim text).length = 0 then 0 else 1

/-- `rankSnippets(query)` (lines 383–399), paired with the number of
embedder calls made: score every snippet of every domain against the
embedded query and sort descending — unless there are no snippets at all,
in which case it returns `[]` before ever embedding the query. -/
def rankSnippets (oracle : String → Except JsError Vec) (st : PopupState)
    (query : String) : Except JsError (List Scored) × Nat :=
  if allSnippetItems st = [] then (.ok [], 0)
  else
    match embedQuery oracle query with
    | .error e => (.error e, embedQueryCalls query)
    | .ok qv =>
      match scoreAll qv st.cache (allSnippetItems st) with
      | .error e => (.error e, embedQueryCalls query)
      | .ok scored => (.ok (sortByScoreDesc scored), embedQueryCalls query)

/-! ### Facts about the scoring loop -/

/-- If the scoring loop succeeded, every supplied item resolved to a cached
vector and a successful cosine score. -/
theorem scoreAll_ok_items {qv : Vec} {c : Cache} :
    ∀ {items : List (Snip × Area)} {l : List Scored},
      scoreAll qv c items = .ok l →
      ∀ p ∈ items, ∃ v sc, getSnippetVector c p.1 = .ok v
        ∧ getCosineSimilarity qv v = .ok sc := by
  intro items
  induction items with
  | nil => intro l _ p hp; exact absurd hp (List.not_mem_nil p)
  | cons q rest ih =>
    intro l h p hp
    obtain ⟨s, ar⟩ := q
    simp only [scoreAll] at h
    split at h
    · cases h
    · rename_i v hv
      split at h
      · cases h
      · rename_i sc hsc
        split at h
        · cases h
        · rename_i tail htail
          rcases List.mem_cons.mp hp with rfl | hp'
          · exact ⟨v, sc, hv, hsc⟩
          · exact ih htail p hp'

/-- If the scoring loop succeeded, every produced entry's score is the
cosine score of that entry's own cached vector. -/
theorem scoreAll_ok_entries {qv : Vec} {c : Cache} :
    ∀ {items : List (Snip × Area)} {l : List Scored},
      scoreAll qv c items = .ok l →
      ∀ e ∈ l, ∃ v, getSnippetVector c e.snip = .ok v
        ∧ getCosineSimilarity qv v = .ok e.score := by
  intro items
  induction items with
  | nil =>
    intro l h e he
    simp only [scoreAll] at h
    cases h
    exact absurd he (List.not_mem_nil e)
  | cons q rest ih =>
    intro l h e he
    obtain ⟨s, ar⟩ := q
    simp only [scoreAll] at h
    split at h
    · cases h
    · rename_i v hv
      split at h
      · cases h
      · rename_i sc hsc
        split at h
        · cases h
        · rename_i tail htail
          cases h
          rcases List.mem_cons.mp he with rfl | he'
          · exact ⟨v, hv, hsc⟩
          · exact ih htail e he'

/-- If the scoring loop succeeded, supplied items and produced entries
correspond pointwise, in order: same snippet, same domain, and the score of
the entry is the cosine score of that snippet's cached vector. -/
theorem scoreAll_ok_pointwise {qv : Vec} {c : Cache} :
    ∀ {items : List (Snip × Area)} {l : List Scored},
      scoreAll qv c items = .ok l →
      List.Forall₂ (fun (p : Snip × Area) (e : Scored) =>
        e.snip = p.1 ∧ e.area = p.2
        ∧ ∃ v, getSnippetVector c p.1 = .ok v
            ∧ getCosineSimilarity qv v = .ok e.score) items l := by
  intro items
  induction items with
  | nil =>
    intro l h
    simp only [scoreAll] at h
    cases h
    exact List.Forall₂.nil
  | cons q rest ih =>
    intro l h
    obtain ⟨s, ar⟩ := q
    simp only [scoreAll] at h
    split at h
    · cases h
    · rename_i v hv
      split at h
      · cases h
      · rename_i sc hsc
        split at h
        · cases h
        · rename_i tail htail
          cases h
          exact List.Forall₂.cons ⟨rfl, rfl, v, hv, hsc⟩ (ih htail)

/-! ## Claims C10 and C6 -/

/-- C10: when the set of items across all domains is empty, ranking returns
an empty result list immediately and makes no embedder call at all (for any
query, in particular any non-empty one the caller supplies). -/
theorem rankSnippets_empty_noop (oracle : String → Except JsError Vec)
    (st : PopupState) (query : String) (h : allSnippetItems st = []) :
    rankSnippets oracle st query = (.ok [], 0) := by
  rw [rankSnippets, if_pos h]

/-- Witness for C10: a state with no snippets in either domain and a
non-empty query. -/
theorem rankSnippets_empty_noop_witness :
    rankSnippets (fun _ => .ok (finVec [1])) ⟨[], [], []⟩ "hello"
      = (.ok [], 0) :=
  rankSnippets_empty_noop _ _ _ (by rfl)

/-- C6: for a (valid) snippet whose id has no entry in the cache, reading
its vector fails with the missing-embedding error; the read is a pure
lookup (its outcome depends only on the cache entry at that id, and the
function has no access to the embedder or storage); and ranking any item
set containing that snippet fails rather than silently skipping it. -/
theorem getSnippetVector_missing_fails (st : PopupState) (s : Snip)
    (ar : Area)
    (h1 : (jsTrim s.text).length ≠ 0) (h2 : s.id.length ≠ 0)
    (h3 : st.cache.lookup s.id = none) :
    getSnippetVector st.cache s = .error (.missingEmbedding s.id)
    ∧ (∀ c₁ c₂ : Cache, c₁.lookup s.id = c₂.lookup s.id →
        getSnippetVector c₁ s = getSnippetVector c₂ s)
    ∧ (∀ (oracle : String → Except JsError Vec) (query : String)
        (l : List Scored), (s, ar) ∈ allSnippetItems st →
        (rankSnippets oracle st query).1 ≠ .ok l) := by
  refine ⟨?_, ?_, ?_⟩
  · rw [getSnippetVector, if_neg h1, if_neg h2, h3]
  · intro c₁ c₂ hc
    rw [getSnippetVector, getSnippetVector, if_neg h1, if_neg h1,
      if_neg h2, if_neg h2, hc]
  · intro oracle query l hmem hok
    by_cases hemp : allSnippetItems st = []
    · rw [hemp] at hmem
      exact absurd hmem (List.not_mem_nil _)
    · rw [rankSnippets, if_neg hemp] at hok
      split at hok
      · simp at hok
      · rename_i qv hq
        split at hok
        · simp at hok
        · rename_i scored hs
          obtain ⟨v, sc, hv, -⟩ := scoreAll_ok_items hs (s, ar) hmem
          rw [getSnippetVector, if_neg h1, if_neg h2, h3] at hv
          cases hv

/-- Witness for C6: snippet `b` is valid but uncached; reading fails and
ranking a state containing it fails. -/
theorem getSnippetVector_missing_fails_witness :
    getSnippetVector [("a", [some 1])] ⟨"b", "t"⟩
        = .error (.missingEmbedding "b")
    ∧ (∀ c₁ c₂ : Cache, c₁.lookup "b" = c₂.lookup "b" →
        getSnippetVector c₁ ⟨"b", "t"⟩ = getSnippetVector c₂ ⟨"b", "t"⟩)
    ∧ (∀ (oracle : String → Except JsError Vec) (query : String)
        (l : List Scored),
        (⟨"b", "t"⟩, Area.localArea)
          ∈ allSnippetItems ⟨[⟨"b", "t"⟩], [], [("a", [some 1])]⟩ →
        (rankSnippets oracle ⟨[⟨"b", "t"⟩], [], [("a", [some 1])]⟩
          query).1 ≠ .ok l) :=
  getSnippetVector_missing_fails ⟨[⟨"b", "t"⟩], [], [("a", [some 1])]⟩
    ⟨"b", "t"⟩ Area.localArea (by decide) (by decide) (by rfl)

/-! ## Claim C4 -/

theorem scoredLE_trans : ∀ (a b c : Scored),
    scoredLE a b = true → scoredLE b c = true → scoredLE a c = true := by
  intro a b c hab hbc
  simp only [scoredLE, scoreGe, decide_eq_true_eq] at hab hbc ⊢
  exact le_trans hbc hab

theorem scoredLE_total : ∀ (a b : Scored),
    scoredLE a b || scoredLE b a := by
  intro a b
  simp only [scoredLE, scoreGe]
  rcases le_total (Score.key b.score) (Score.key a.score) with h | h
  · simp [h]
  · simp [h]

/-- C4: on any item set with resolvable cached vectors (the query embeds to
`qv` and every snippet scores successfully, producing `scored`),
`rankSnippets` embeds the query once and returns a permutation of `scored`
(the same multiset of items, each paired — pointwise, per `Forall₂` — with
the cosine score of its own cached vector), sorted so that the real cosine
values `dot/(√normA·√normB)` are descending, and stable: any two entries
whose input order already agrees with the comparator (in particular any two
tied entries) keep their relative input order. -/
theorem rankSnippets_sorted_stable (oracle : String → Except JsError Vec)
    (st : PopupState) (query : String) (qv : Vec) (scored : List Scored)
    (hne : allSnippetItems st ≠ [])
    (hq : embedQuery oracle query = .ok qv)
    (hs : scoreAll qv st.cache (allSnippetItems st) = .ok scored) :
    rankSnippets oracle st query = (.ok (sortByScoreDesc scored), 1)
    ∧ (sortByScoreDesc scored).Perm scored
    ∧ List.Forall₂ (fun (p : Snip × Area) (e : Scored) =>
        e.snip = p.1 ∧ e.area = p.2
        ∧ ∃ v, getSnippetVector st.cache p.1 = .ok v
            ∧ getCosineSimilarity qv v = .ok e.score)
        (allSnippetItems st) scored
    ∧ (sortByScoreDesc scored).Pairwise (fun x y =>
        (y.score.dot : ℝ)
            / (Real.sqrt (y.score.normA : ℝ) * Real.sqrt (y.score.normB : ℝ))
          ≤ (x.score.dot : ℝ)
            / (Real.sqrt (x.score.normA : ℝ) * Real.sqrt (x.score.normB : ℝ)))
    ∧ (∀ x y : Scored, scoredLE x y = true → List.Sublist [x, y] scored →
        List.Sublist [x, y] (sortByScoreDesc scored)) := by
  refine ⟨?_, List.mergeSort_perm scored scoredLE, scoreAll_ok_pointwise hs,
    ?_, ?_⟩
  · have hcalls : embedQueryCalls query = 1 := by
      rw [embedQuery] at hq
      by_cases ht : (jsTrim query).length = 0
      · rw [if_pos ht] at hq; cases hq
      · rw [embedQueryCalls, if_neg ht]
    rw [rankSnippets, if_neg hne]
    simp only [hq, hs, hcalls, sortByScoreDesc]
  · have hpos : ∀ e ∈ scored, 0 < e.score.normA ∧ 0 < e.score.normB := by
      intro e he
      obtain ⟨v, -, hcos⟩ := scoreAll_ok_entries hs e he
      exact getCosineSimilarity_ok_pos hcos
    have hsorted := List.sorted_mergeSort scoredLE_trans scoredLE_total scored
    refine List.Pairwise.imp_of_mem ?_ hsorted
    intro x y hx hy hxy
    have hx' := hpos x (List.mem_mergeSort.mp hx)
    have hy' := hpos y (List.mem_mergeSort.mp hy)
    exact (scoreGe_iff_real x.score y.score hx'.1 hx'.2 hy'.1 hy'.2).mp hxy
  · intro x y hxy hsub
    exact List.pair_sublist_mergeSort scoredLE_trans scoredLE_total hxy hsub

/-- Query vector of the spec's determinism example: `Q = [1, 0]`. -/
def qvDet : Vec := finVec [1, 0]

/-- State of the spec's determinism example: three snippets whose cached
vectors are `A = [1, 0]`, `B = [0, 1]` and `C = [0.9, 0.1]`, supplied in the
order A, B, C. -/
def stDet : PopupState :=
  ⟨[⟨"a", "A"⟩, ⟨"b", "B"⟩, ⟨"c", "C"⟩], [],
   [("a", finVec [1, 0]), ("b", finVec [0, 1]),
    ("c", finVec [0.9, 0.1])]⟩

/-- Scored entry of snippet A against Q. -/
def entryA : Scored := ⟨⟨"a", "A"⟩, .localArea, ⟨1, 1, 1⟩⟩

/-- Scored entry of snippet B against Q. -/
def entryB : Scored := ⟨⟨"b", "B"⟩, .localArea, ⟨0, 1, 1⟩⟩

/-- Scored entry of snippet C against Q. -/
def entryC : Scored := ⟨⟨"c", "C"⟩, .localArea, ⟨9/10, 1, 41/50⟩⟩

/-- Witness for C4, the spec's determinism example: with vectors
`A = [1,0]`, `B = [0,1]`, `C = [0.9,0.1]` and query `Q = [1,0]`, the ranked
order is A, C, B. -/
theorem rankSnippets_sorted_stable_witness :
    sortByScoreDesc [entryA, entryB, entryC] = [entryA, entryC, entryB]
    ∧ (rankSnippets (fun _ => .ok qvDet) stDet "q"
        = (.ok (sortByScoreDesc [entryA, entryB, entryC]), 1)
      ∧ (sortByScoreDesc [entryA, entryB, entryC]).Perm
          [entryA, entryB, entryC]
      ∧ List.Forall₂ (fun (p : Snip × Area) (e : Scored) =>
          e.snip = p.1 ∧ e.area = p.2
          ∧ ∃ v, getSnippetVector stDet.cache p.1 = .ok v
              ∧ getCosineSimilarity qvDet v = .ok e.score)
          (allSnippetItems stDet) [entryA, entryB, entryC]
      ∧ (sortByScoreDesc [entryA, entryB, entryC]).Pairwise (fun x y =>
          (y.score.dot : ℝ)
              / (Real.sqrt (y.score.normA : ℝ)
                  * Real.sqrt (y.score.normB : ℝ))
            ≤ (x.score.dot : ℝ)
              / (Real.sqrt (x.score.normA : ℝ)
                  * Real.sqrt (x.score.normB : ℝ)))
      ∧ (∀ x y : Scored, scoredLE x y = true →
          List.Sublist [x, y] [entryA, entryB, entryC] →
          List.Sublist [x, y] (sortByScoreDesc [entryA, entryB, entryC]))) :=
  ⟨by norm_num [sortByScoreDesc, List.mergeSort, List.merge, scoredLE,
      scoreGe, Score.key, entryA, entryB, entryC, abs_of_nonneg],
   rankSnippets_sorted_stable (fun _ => .ok qvDet) stDet "q" qvDet
    [entryA, entryB, entryC]
    (by simp [allSnippetItems, stDet])
    (by rfl)
    (by norm_num +decide [scoreAll, getSnippetVector, getCosineSimilarity,
      cosLoop, toVector, finVec, qVal, stDet, qvDet, allSnippetItems,
      entryA, entryB, entryC, List.lookup,
      show (("b" : String) == "a") = false from rfl,
      show (("c" : String) == "a") = false from rfl,
      show (("c" : String) == "b") = false from rfl])⟩

/-! ## Claim C5: stale-query suppression (part_000 lines 341–381,
`filterSnippets`) -/

/-- What the popup surfaces after a query lifecycle step. -/
inductive SearchDisplay
  /-- The unranked, domain-ordered list (idle / empty query). -/
  | unranked
  /-- Ranked search results. -/
  | results (ranked : List Scored)
  /-- An error status message. -/
  | failed (e : JsError)
deriving Repr, DecidableEq

/-- Controller state: the monotonically increasing `searchToken` plus the
surfaced display.  Transient "loading" status text is presentation only and
not part of the final observable state. -/
structure SearchState where
  searchToken : Nat
  display : SearchDisplay
deriving Repr, DecidableEq

/-- Issuing a non-empty query (line 351,
`const requestId = ++searchToken`): bump the token and capture the new
value as the request's id. -/
def issueSearch (st : SearchState) : SearchState × Nat :=
  ({ st with searchToken := st.searchToken + 1 }, st.searchToken + 1)

/-- A request's async work resuming (lines 354–380): each resumption point
first compares the captured `requestId` with the current `searchToken`; a
mismatch discards the result — success or failure alike — with no state
transition, while a match surfaces the ranking (or the error status). -/
def completeSearch (st : SearchState) (requestId : Nat)
    (res : Except JsError (List Scored)) : SearchState :=
  if requestId ≠ st.searchToken then st
  else
    match res with
    | .ok ranked => { st with display := .results ranked }
    | .error e => { st with display := .failed e }

/-- C5: if query "a" is issued and then query "b" is issued before "a"
completes, then — regardless of the order in which the two requests
complete, and regardless of whether each succeeded or failed — request "a"'s
completion causes no state transition (it is discarded), the final state is
the same for both completion orders, and the surfaced display is exactly
request "b"'s outcome. -/
theorem staleQuery_suppressed (st0 : SearchState)
    (ra rb : Except JsError (List Scored)) :
    completeSearch (issueSearch (issueSearch st0).1).1
        (issueSearch st0).2 ra
      = (issueSearch (issueSearch st0).1).1
    ∧ completeSearch
        (completeSearch (issueSearch (issueSearch st0).1).1
          (issueSearch (issueSearch st0).1).2 rb)
        (issueSearch st0).2 ra
      = completeSearch (issueSearch (issueSearch st0).1).1
          (issueSearch (issueSearch st0).1).2 rb
    ∧ completeSearch
        (completeSearch (issueSearch (issueSearch st0).1).1
          (issueSearch st0).2 ra)
        (issueSearch (issueSearch st0).1).2 rb
      = completeSearch
          (completeSearch (issueSearch (issueSearch st0).1).1
            (issueSearch (issueSearch st0).1).2 rb)
          (issueSearch st0).2 ra
    ∧ (completeSearch
        (completeSearch (issueSearch (issueSearch st0).1).1
          (issueSearch st0).2 ra)
        (issueSearch (issueSearch st0).1).2 rb).display
      = (match rb with
         | .ok ranked => .results ranked
         | .error e => .failed e) := by
  have hA : st0.searchToken + 1 ≠ st0.searchToken + 1 + 1 := by omega
  refine ⟨?_, ?_, ?_, ?_⟩ <;> cases rb <;>
    simp [issueSearch, completeSearch, hA]

/-! ## Claim C8: moving a snippet between domains (part_000 lines 637–666,
`moveSnippet`) -/

/-- Read a domain's snippet list from the popup state. -/
def areaSnips (st : PopupState) : Area → List Snip
  | .localArea => st.localSnips
  | .syncArea => st.syncSnips

/-- Write a domain's snippet list. -/
def setAreaSnips (st : PopupState) : Area → List Snip → PopupState
  | .localArea, l => { st with localSnips := l }
  | .syncArea, l => { st with syncSnips := l }

/-- `getSnippetIndex(area, id)` (lines 567–583): validate the id, then
`findIndex` over the domain's list. -/
def getSnippetIndex (l : List Snip) (id : String) : Except JsError Nat :=
  if id.length = 0 then .error .snippetIdRequired
  else
    match l.findIdx? (fun s => s.id == id) with
    | none => .error .snippetNotFound
    | some i => .ok i

/-- `moveSnippet(area, id, targetArea)` (lines 637–666), paired with the
number of embedder calls it makes — the function has no path to the
embedder at all, and it never mentions `embeddingsIndex`, so the state's
`cache` field is carried through untouched. -/
def moveSnippet (st : PopupState) (area : Area) (id : String)
    (targetArea : Area) : Except JsError (PopupState × Nat) :=
  if targetArea = area then .error .sameTargetArea
  else
    match getSnippetIndex (areaSnips st area) id with
    | .error e => .error e
    | .ok i =>
      match (areaSnips st area).get? i with
      | none => .error .snippetNotFound
      | some snippet =>
        if (areaSnips st targetArea).any (fun s => s.id == snippet.id) then
          .error .duplicateInTarget
        else
          .ok (setAreaSnips
                (setAreaSnips st area ((areaSnips st area).eraseIdx i))
                targetArea (areaSnips st targetArea ++ [snippet]), 0)

/-- A list containing an element satisfying `p` has a first index for `p`,
and the element found there satisfies `p`. -/
theorem findIdx?_of_exists {p : Snip → Bool} :
    ∀ l : List Snip, (∃ s ∈ l, p s = true) →
      ∃ i s, l.findIdx? p = some i ∧ l.get? i = some s ∧ p s = true
  | [], h => absurd h (by simp)
  | x :: xs, h => by
    by_cases hx : p x = true
    · exact ⟨0, x, by simp [List.findIdx?_cons, hx], rfl, hx⟩
    · have hxs : ∃ s ∈ xs, p s = true := by
        rcases h with ⟨s, hs, hps⟩
        rcases List.mem_cons.mp hs with rfl | hs'
        · exact absurd hps hx
        · exact ⟨s, hs', hps⟩
      obtain ⟨i, s, hfind, hget, hp⟩ := findIdx?_of_exists xs hxs
      exact ⟨i + 1, s, by simp [List.findIdx?_cons, hx, hfind], by
        simpa using hget, hp⟩

/-- `setAreaSnips` never touches the cache. -/
theorem setAreaSnips_cache (st : PopupState) (a : Area) (l : List Snip) :
    (setAreaSnips st a l).cache = st.cache := by
  cases a <;> rfl

/-- C8: for a snippet with id `id` present in the source domain and absent
from the target domain, the move succeeds, issues no embedder call, and
leaves the whole embedding cache — in particular the entry under `id` —
unchanged. -/
theorem moveSnippet_preserves_cache (st : PopupState)
    (area targetArea : Area) (id : String)
    (hdiff : targetArea ≠ area)
    (hid : id.length ≠ 0)
    (hsrc : ∃ s ∈ areaSnips st area, s.id = id)
    (habs : ∀ s ∈ areaSnips st targetArea, s.id ≠ id) :
    ∃ st' : PopupState,
      moveSnippet st area id targetArea = .ok (st', 0)
      ∧ st'.cache = st.cache
      ∧ st'.cache.lookup id = st.cache.lookup id := by
  have hsrc' : ∃ s ∈ areaSnips st area, (fun s => s.id == id) s = true := by
    rcases hsrc with ⟨s, hs, hsid⟩
    exact ⟨s, hs, by simp [hsid]⟩
  obtain ⟨i, s, hfind, hget, hp⟩ := findIdx?_of_exists _ hsrc'
  have hsid : s.id = id := by simpa using hp
  have hdup : (areaSnips st targetArea).any (fun t => t.id == s.id)
      = false := by
    rw [List.any_eq_false]
    intro t ht
    simp [hsid]
    exact habs t ht
  refine ⟨setAreaSnips (setAreaSnips st area ((areaSnips st area).eraseIdx i))
      targetArea (areaSnips st targetArea ++ [s]), ?_, ?_, ?_⟩
  · rw [moveSnippet, if_neg hdiff, getSnippetIndex, if_neg hid, hfind]
    show (match (areaSnips st area).get? i with
      | none => (.error .snippetNotFound : Except JsError (PopupState × Nat))
      | some snippet =>
        if (areaSnips st targetArea).any (fun t => t.id == snippet.id) then
          .error .duplicateInTarget
        else
          .ok (setAreaSnips
                (setAreaSnips st area ((areaSnips st area).eraseIdx i))
                targetArea (areaSnips st targetArea ++ [snippet]), 0)) = _
    rw [hget]
    show (if (areaSnips st targetArea).any (fun t => t.id == s.id) then
        (.error .duplicateInTarget : Except JsError (PopupState × Nat))
      else .ok (setAreaSnips
            (setAreaSnips st area ((areaSnips st area).eraseIdx i))
            targetArea (areaSnips st targetArea ++ [s]), 0)) = _
    rw [hdup]
    simp
  · rw [setAreaSnips_cache, setAreaSnips_cache]
  · rw [setAreaSnips_cache, setAreaSnips_cache]

/-- Witness for C8: snippet `a` moves from the local domain to the sync
domain; the cache entry under `a` is untouched and no embedder call is
made. -/
theorem moveSnippet_preserves_cache_witness :
    ∃ st' : PopupState,
      moveSnippet ⟨[⟨"a", "t"⟩], [⟨"b", "u"⟩], [("a", [some 1])]⟩
          Area.localArea ("a") Area.syncArea = .ok (st', 0)
      ∧ st'.cache = [("a", [some (1 : ℚ)])]
      ∧ st'.cache.lookup ("a") = List.lookup ("a") [("a", [some (1 : ℚ)])] :=
  moveSnippet_preserves_cache ⟨[⟨"a", "t"⟩], [⟨"b", "u"⟩], [("a", [some 1])]⟩
    Area.localArea Area.syncArea ("a")
    (by decide) (by decide) ⟨⟨"a", "t"⟩, by simp [areaSnips], rfl⟩
    (by intro t ht; simp [areaSnips] at ht; simp [ht])

/-! ## Claim C9: embedder initialization memoization (`offscreen.js`
lines 14 and 41–68, `embedderPromise` / `getEmbedder`) -/

/-- The offscreen document's module state: `embedderPromise` caches the
promise of the single initialization attempt (`none` before the first
call).  A promise is identified by its attempt number; its eventual outcome
(success, or an initialization failure) is a function of that number,
supplied as an oracle by theorems that talk about awaiting it.  Nothing in
the source ever resets `embedderPromise`, so the model has no clearing
transition either. -/
structure OffscreenState where
  embedderPromise : Option Nat
deriving Repr, DecidableEq

/-- `getEmbedder()` (lines 41–68): if `embedderPromise` is set — whether
still pending, fulfilled, or rejected — return that same promise and start
nothing; otherwise synchronously store the promise of a fresh attempt
(numbered `fresh`) and return it.  The Boolean records whether a new
initialization attempt was started by this call. -/
def getEmbedder (st : OffscreenState) (fresh : Nat) :
    OffscreenState × Nat × Bool :=
  match st.embedderPromise with
  | some p => (st, p, false)
  | none => (⟨some fresh⟩, fresh, true)

/-- Counterexample to C9 as stated: after the first call started attempt 0
(first conjunct) and attempt 0 failed — the rejection leaves
`embedderPromise` set, since nothing ever clears it — the next call does
not make a fresh initialization attempt: it returns the same failed attempt
0 and starts nothing (second and third conjuncts), so every later awaiter
observes the original failure (fourth conjunct, with an outcome oracle
failing attempt 0). -/
theorem getEmbedder_no_fresh_attempt_after_failure :
    getEmbedder ⟨none⟩ 0 = (⟨some 0⟩, 0, true)
    ∧ getEmbedder ⟨some 0⟩ 1 = (⟨some 0⟩, 0, false)
    ∧ (getEmbedder ⟨some 0⟩ 1).2.2 ≠ true
    ∧ (fun _ => (.error .embedderUnavailable : Except JsError Unit))
        (getEmbedder ⟨some 0⟩ 1).2.1 = .error .embedderUnavailable := by
  refine ⟨rfl, rfl, by decide, rfl⟩

/-- C9 (amended): the embedder client memoizes its one-time initialization.
A call finding no cached attempt starts exactly one and caches it; every
call finding a cached attempt — in flight, fulfilled, or rejected — awaits
that same attempt and starts nothing; hence any two consecutive calls share
one attempt and observe the same outcome, so an initialization failure
propagates to all current awaiters — and, because the failed promise stays
cached, to every later call as well: no fresh initialization attempt is
ever made. -/
theorem getEmbedder_memoizes (st : OffscreenState) (fresh fresh' : Nat)
    (outcome : Nat → Except JsError Unit) :
    (st.embedderPromise = none →
      getEmbedder st fresh = (⟨some fresh⟩, fresh, true))
    ∧ (∀ p, st.embedderPromise = some p →
        getEmbedder st fresh = (st, p, false))
    ∧ getEmbedder (getEmbedder st fresh).1 fresh'
        = ((getEmbedder st fresh).1, (getEmbedder st fresh).2.1, false)
    ∧ outcome (getEmbedder (getEmbedder st fresh).1 fresh').2.1
        = outcome (getEmbedder st fresh).2.1 := by
  refine ⟨?_, ?_, ?_, ?_⟩ <;> cases hp : st.embedderPromise <;>
    simp [getEmbedder, hp]

/-- Witness for C9 (amended), at the initial state with a failing first
attempt: the first call starts attempt 0, a second call shares it, and both
observe the same failure. -/
theorem getEmbedder_memoizes_witness :
    ((⟨none⟩ : OffscreenState).embedderPromise = none →
      getEmbedder ⟨none⟩ 0 = (⟨some 0⟩, 0, true))
    ∧ (∀ p, (⟨none⟩ : OffscreenState).embedderPromise = some p →
        getEmbedder ⟨none⟩ 0 = (⟨none⟩, p, false))
    ∧ getEmbedder (getEmbedder ⟨none⟩ 0).1 1
        = ((getEmbedder ⟨none⟩ 0).1, (getEmbedder ⟨none⟩ 0).2.1, false)
    ∧ (fun _ => (.error .embedderUnavailable : Except JsError Unit))
          (getEmbedder (getEmbedder ⟨none⟩ 0).1 1).2.1
        = (fun _ => (.error .embedderUnavailable : Except JsError Unit))
          (getEmbedder ⟨none⟩ 0).2.1 :=
  getEmbedder_memoizes ⟨none⟩ 0 1
    (fun _ => (.error .embedderUnavailable : Except JsError Unit))

end SnippetVault
